/-
Verification of the salamyar-backend core:
selection store (`app/services/product_selection_service.py`),
similar-item fetcher and vendor-overlap analyzer
(`app/services/similar_products_service.py`), and the cart-confirmation
endpoint (`app/api/v1/endpoints/selections.py`).

The Python services are shallowly embedded: the selection store's dict
state becomes an insertion-ordered association list (Python dicts preserve
insertion order; assignment to an existing key updates in place, `del`
removes the entry), `datetime.now()` becomes an explicit `now : Nat`
argument, and nondeterministic network calls become explicit source
functions passed in as parameters.  Python truthiness tests (`if not
product_id`, `if request.search_session_id`) are modelled exactly: `0`
and the empty string count as falsy.
-/
import Mathlib

namespace Salamyar

/-! ### Data model (`app/models/schemas.py`) -/

/-- Model `SelectProductRequest` from `schemas.py` (fields used by the store). -/
structure SelectProductRequest where
  product_id : Nat
  product_name : String
  vendor_id : Nat
  vendor_name : String
  status_id : Nat
  image_url : Option String
  search_session_id : Option String
deriving DecidableEq

/-- Model `SelectedProduct` from `schemas.py`; `selected_at` (a `datetime`)
is modelled as an abstract `Nat` timestamp. -/
structure SelectedProduct where
  id : Nat
  product_id : Nat
  product_name : String
  vendor_id : Nat
  vendor_name : String
  status_id : Nat
  image_url : Option String
  selected_at : Nat
  search_session_id : Option String
deriving DecidableEq

/-- Model `SelectedProductsResponse` from `schemas.py`. -/
structure SelectedProductsResponse where
  products : List SelectedProduct
  total_count : Nat
deriving DecidableEq

/-! ### Association-list helpers modelling Python `dict`

Python dicts preserve insertion order.  `updateAssoc` models
`d[k] = v` (update in place if the key exists, else append), `eraseKey`
models `del d[k]`, `lookupAssoc` models `d.get(k)`. -/

def lookupAssoc {V : Type} : List (Nat × V) → Nat → Option V
  | [], _ => none
  | (k, v) :: rest, key => if k = key then some v else lookupAssoc rest key

def containsKey {V : Type} (l : List (Nat × V)) (key : Nat) : Bool :=
  l.any (fun e => e.1 == key)

def updateAssoc {V : Type} : List (Nat × V) → Nat → V → List (Nat × V)
  | [], key, v => [(key, v)]
  | (k, w) :: rest, key, v =>
    if k = key then (k, v) :: rest else (k, w) :: updateAssoc rest key v

def eraseKey {V : Type} : List (Nat × V) → Nat → List (Nat × V)
  | [], _ => []
  | (k, w) :: rest, key => if k = key then rest else (k, w) :: eraseKey rest key

/-- String-keyed analogue of `lookupAssoc`, for the search-session map. -/
def lookupSession : List (String × Nat) → String → Option Nat
  | [], _ => none
  | (k, v) :: rest, key => if k = key then some v else lookupSession rest key

/-- String-keyed analogue of `updateAssoc`. -/
def updateSession : List (String × Nat) → String → Nat → List (String × Nat)
  | [], key, v => [(key, v)]
  | (k, w) :: rest, key, v =>
    if k = key then (k, v) :: rest else (k, w) :: updateSession rest key v

/-! ### Selection store (`app/services/product_selection_service.py`) -/

/-- The mutable state of `ProductSelectionService`: `_selected_products`
(dict from selection id to `SelectedProduct`), `_search_sessions`
(dict from search-session id to selection id) and `_next_id`. -/
structure StoreState where
  selected : List (Nat × SelectedProduct)
  sessions : List (String × Nat)
  nextId : Nat
deriving DecidableEq

/-- The store state built by `ProductSelectionService.__init__`. -/
def initialStore : StoreState := ⟨[], [], 1⟩

/-- Helper `_find_by_product_id`: scan the dict's values in insertion order and
return the first selection whose `product_id` matches. -/
def findByProductId : List (Nat × SelectedProduct) → Nat → Option SelectedProduct
  | [], _ => none
  | (_, p) :: rest, pid =>
    if p.product_id = pid then some p else findByProductId rest pid

/-- The `if request.search_session_id:` truthiness guard: `None` and the
empty string are falsy. -/
def sessionKey (req : SelectProductRequest) : Option String :=
  match req.search_session_id with
  | none => none
  | some k => if k = "" then none else some k

/-- Method `select_product`.  Returns the resulting `SelectedProduct` and the
updated store state; `now` stands for `datetime.now()`. -/
def selectProduct (s : StoreState) (req : SelectProductRequest) (now : Nat) :
    SelectedProduct × StoreState :=
  match findByProductId s.selected req.product_id with
  | some existing => (existing, s)
  | none =>
    let s1 : StoreState :=
      match sessionKey req with
      | none => s
      | some k =>
        match lookupSession s.sessions k with
        | none => s
        | some selId =>
          -- `if existing_selection_id:` — selection id 0 is falsy
          if selId = 0 then s
          else if containsKey s.selected selId then
            ⟨eraseKey s.selected selId, s.sessions, s.nextId⟩
          else s
    let newP : SelectedProduct :=
      ⟨s.nextId, req.product_id, req.product_name, req.vendor_id, req.vendor_name,
        req.status_id, req.image_url, now, req.search_session_id⟩
    let selected2 := updateAssoc s1.selected s.nextId newP
    let sessions2 :=
      match sessionKey req with
      | none => s1.sessions
      | some k => updateSession s1.sessions k s.nextId
    (newP, ⟨selected2, sessions2, s.nextId + 1⟩)

/-- The comparison under `products.sort(key=lambda p: p.selected_at,
reverse=True)`: a stable descending sort on `selected_at`. -/
def tsLE (a b : SelectedProduct) : Bool := decide (b.selected_at ≤ a.selected_at)

/-- Method `get_selected_products`: copy the dict's values (insertion order),
stable-sort by `selected_at` descending, return them with the count.
The method reads the store without mutating it, so the state is
returned unchanged. -/
def getSelectedProducts (s : StoreState) : SelectedProductsResponse × StoreState :=
  let products := (s.selected.map (fun e => e.2)).mergeSort tsLE
  (⟨products, products.length⟩, s)

/-- Method `remove_product`: find the first dict entry whose value has the given
`product_id`, delete it and return `True`; otherwise return `False`. -/
def removeProduct (s : StoreState) (pid : Nat) : Bool × StoreState :=
  match (s.selected.find? (fun e => e.2.product_id == pid)) with
  | some e => (true, ⟨eraseKey s.selected e.1, s.sessions, s.nextId⟩)
  | none => (false, s)

/-- Store well-formedness: the invariants every reachable
`ProductSelectionService` state satisfies — selection ids are unique
dict keys, at most one active selection per `product_id`, and all
assigned ids are positive and below `_next_id`. -/
def StoreWF (s : StoreState) : Prop :=
  (s.selected.map (fun e => e.1)).Nodup ∧
  (s.selected.map (fun e => e.2.product_id)).Nodup ∧
  ∀ e ∈ s.selected, 0 < e.1 ∧ e.1 < s.nextId

instance (s : StoreState) : Decidable (StoreWF s) := by
  unfold StoreWF; infer_instance

/-! ### Similar products (`app/services/similar_products_service.py`) -/

/-- Model `SimilarProduct` from `schemas.py`; the float `price` is modelled
as a rational. -/
structure SimilarProduct where
  id : Nat
  name : String
  price : Rat
  vendor_id : Nat
  vendor_name : String
  status_id : Nat
  image_url : Option String
  basalam_url : String
  original_product_id : Nat
deriving DecidableEq

/-- Model `VendorMatch` from `schemas.py`. -/
structure VendorMatch where
  vendor_id : Nat
  vendor_name : String
  matched_products_count : Nat
  user_selected_products : List Nat
  similar_products : List SimilarProduct
deriving DecidableEq

/-- One value of the `processing_summary` dict built by
`find_vendor_overlaps`. -/
structure ProcessingSummaryEntry where
  product_name : String
  similar_products_found : Nat
  vendors_found : Nat
deriving DecidableEq

/-- Model `CartConfirmationResponse` from `schemas.py`; the
`processing_summary` dict is modelled as an insertion-ordered
association list keyed by `product_id`. -/
structure CartConfirmationResponse where
  total_selected_products : Nat
  total_similar_products_found : Nat
  vendors_with_multiple_matches : List VendorMatch
  processing_summary : List (Nat × ProcessingSummaryEntry)
deriving DecidableEq

/-- Constant `self.max_similar_products_per_item` from
`SimilarProductsService.__init__`. -/
def maxSimilarProductsPerItem : Nat := 100

/-- Constant `self.page_size` from `SimilarProductsService.__init__`. -/
def defaultPageSize : Nat := 24

/-- A raw `vendor` sub-record of the MLT payload; `product.get("vendor", {})`
with both fields possibly absent. -/
structure RawVendor where
  id : Option Nat
  name : Option String
deriving DecidableEq

/-- A raw `photo` sub-record of the MLT payload. -/
structure RawPhoto where
  MEDIUM : Option String
  SMALL : Option String
deriving DecidableEq

/-- A raw `status` sub-record of the MLT payload. -/
structure RawStatus where
  id : Option Nat
deriving DecidableEq

/-- One raw record of the `products` array of an MLT page payload.
A missing `vendor`/`photo`/`status` dict is the record with all fields
`none`; the float `price` is modelled as an optional rational. -/
structure RawProduct where
  id : Option Nat
  name : Option String
  price : Option Rat
  vendor : RawVendor
  photo : RawPhoto
  status : RawStatus
deriving DecidableEq

/-- Python `photo.get("MEDIUM") or photo.get("SMALL")`: the first operand
if it is truthy (present and non-empty), otherwise the second. -/
def pyOrStr (a b : Option String) : Option String :=
  match a with
  | none => b
  | some s => if s = "" then b else some s

/-- The per-record body of `_parse_similar_products_response`: drop the
record when `id` or `vendor.id` is falsy (absent or zero), otherwise
build the `SimilarProduct` with the documented defaults and the
canonical `basalam_url`. -/
def parseSimilarProduct (origId : Nat) (product : RawProduct) : Option SimilarProduct :=
  match product.id with
  | none => none
  | some pid =>
    if pid = 0 then none
    else
      match product.vendor.id with
      | none => none
      | some vid =>
        if vid = 0 then none
        else
          some ⟨pid, product.name.getD "", product.price.getD 0, vid,
            product.vendor.name.getD "", product.status.id.getD 0,
            pyOrStr product.photo.MEDIUM product.photo.SMALL,
            "https://basalam.com/p/" ++ toString pid, origId⟩

/-- Method `_parse_similar_products_response` over a page's `products` array. -/
def parseSimilarProductsResponse (products : List RawProduct) (origId : Nat) :
    List SimilarProduct :=
  products.filterMap (parseSimilarProduct origId)

/-- Method `_fetch_similar_products_page`: a transport failure, non-200 status or
malformed body (the `Except.error` case of the source) is absorbed and
yields the empty page; a successful payload is normalized. -/
def fetchSimilarProductsPage (src : Nat → Nat → Except Unit (List RawProduct))
    (origId : Nat) (off size : Nat) : List SimilarProduct :=
  match src off size with
  | Except.error _ => []
  | Except.ok raws => parseSimilarProductsResponse raws origId

/-- The `while` loop of `_find_similar_products_for_item`, with explicit
fuel (the loop makes at most `cap` accumulating iterations, so any fuel
above `cap` is never exhausted).  Returns the accumulated items together
with the trace of `(from_offset, size)` page requests issued. -/
def fetchLoop (page : Nat → Nat → List SimilarProduct) (cap ps : Nat) :
    Nat → List SimilarProduct → Nat → List SimilarProduct × List (Nat × Nat)
  | 0, acc, _ => (acc, [])
  | fuel + 1, acc, off =>
    if cap ≤ acc.length then (acc, [])
    else
      let size := min ps (cap - acc.length)
      let pg := page off size
      if pg.isEmpty then (acc, [(off, size)])
      else
        let acc2 := acc ++ pg
        if pg.length < size then (acc2, [(off, size)])
        else
          let r := fetchLoop page cap ps fuel acc2 (off + pg.length)
          (r.1, (off, size) :: r.2)

/-- Method `_find_similar_products_for_item` together with its request trace. -/
def fetchWithTrace (page : Nat → Nat → List SimilarProduct) (cap ps : Nat) :
    List SimilarProduct × List (Nat × Nat) :=
  fetchLoop page cap ps (cap + 1) [] 0

/-- Method `_find_similar_products_for_item`: run the pagination loop and
return `similar_products[:cap]`. -/
def findSimilarProductsForItem (page : Nat → Nat → List SimilarProduct)
    (cap ps : Nat) : List SimilarProduct :=
  (fetchWithTrace page cap ps).1.take cap

/-- The `defaultdict(list)` grouping step of `_analyze_vendor_overlaps`:
append the product to its vendor's group, creating the group at the end
on first sight of the vendor. -/
def addToVendorGroups (groups : List (Nat × List SimilarProduct))
    (p : SimilarProduct) : List (Nat × List SimilarProduct) :=
  if containsKey groups p.vendor_id then
    groups.map (fun g => if g.1 = p.vendor_id then (g.1, g.2 ++ [p]) else g)
  else groups ++ [(p.vendor_id, [p])]

/-- Grouping `vendor_products` of `_analyze_vendor_overlaps`: all similar items
grouped by `vendor_id`, vendors in first-seen order. -/
def vendorGroups (items : List SimilarProduct) : List (Nat × List SimilarProduct) :=
  items.foldl addToVendorGroups []

/-- Python `products[0].vendor_name if products else ""` — the vendor display
name taken from the group's first item. -/
def firstVendorName (g : List SimilarProduct) : String :=
  match g with
  | [] => ""
  | p :: _ => p.vendor_name

/-- Method `_analyze_vendor_overlaps`: one `VendorMatch` per vendor group whose
items cover at least one distinct `original_product_id` (every non-empty
group does); the display name is the group's first item's vendor name.
`selectedProducts` is accepted but, as in the source, not used. -/
def analyzeVendorOverlaps (selectedProducts : List SelectedProduct)
    (allSimilar : List SimilarProduct) : List VendorMatch :=
  (vendorGroups allSimilar).filterMap (fun g =>
    let covered := (g.2.map (fun p => p.original_product_id)).dedup
    if 1 ≤ covered.length then
      some ⟨g.1, firstVendorName g.2, covered.length, covered, g.2⟩
    else none)

/-- The comparison under
`sort(key=lambda v: (-v.matched_products_count, v.vendor_name))`:
matched count descending, then vendor name ascending. -/
def vendorLE (v w : VendorMatch) : Bool :=
  decide (w.matched_products_count < v.matched_products_count) ||
    (v.matched_products_count == w.matched_products_count &&
      decide (v.vendor_name ≤ w.vendor_name))

/-- The filter-and-sort tail of `find_vendor_overlaps`: keep vendors with
at least 2 matches and stable-sort them by `vendorLE`. -/
def rankedVendorMatches (selectedProducts : List SelectedProduct)
    (allSimilar : List SimilarProduct) : List VendorMatch :=
  ((analyzeVendorOverlaps selectedProducts allSimilar).filter
    (fun v => 2 ≤ v.matched_products_count)).mergeSort vendorLE

/-- The fetch `find_vendor_overlaps` performs for one selected product:
page through the external source (queried with the selection's name, id
and status, modelled by fixing the selection in `src`) up to the default
cap. -/
def fetchForItem (src : SelectedProduct → Nat → Nat → Except Unit (List RawProduct))
    (sp : SelectedProduct) : List SimilarProduct :=
  findSimilarProductsForItem (fetchSimilarProductsPage (src sp) sp.product_id)
    maxSimilarProductsPerItem defaultPageSize

/-- Method `find_vendor_overlaps`: short-circuit on an empty selection list;
otherwise fetch similar items per selection, record the per-selection
summary, and filter/sort the vendor matches. -/
def findVendorOverlaps (src : SelectedProduct → Nat → Nat → Except Unit (List RawProduct))
    (selectedProducts : List SelectedProduct) : CartConfirmationResponse :=
  match selectedProducts with
  | [] => ⟨0, 0, [], []⟩
  | _ :: _ =>
    let perSelection := selectedProducts.map (fun sp => (sp, fetchForItem src sp))
    let allSimilar := (perSelection.map (fun e => e.2)).flatten
    let summary := perSelection.map (fun e =>
      (e.1.product_id,
        (⟨e.1.product_name, e.2.length,
          ((e.2.map (fun p => p.vendor_id)).dedup).length⟩ : ProcessingSummaryEntry)))
    ⟨selectedProducts.length, allSimilar.length,
      rankedVendorMatches selectedProducts allSimilar, summary⟩

/-- The spec's "distinct source selections covered by a vendor": the
number of distinct `original_product_id` tags among the corpus items
belonging to the vendor.  Stated from the spec's words, for comparing
the analyzer's output against the claimed membership condition. -/
def coveredSelectionCount (allSimilar : List SimilarProduct) (vid : Nat) : Nat :=
  ((allSimilar.filter (fun p => p.vendor_id == vid)).map
    (fun p => p.original_product_id)).dedup.length

/-- The `/confirm` endpoint flow (`confirm_shopping_cart` in
`selections.py`): snapshot the store, reject an empty snapshot with the
400 error (modelled as `Except.error`), otherwise run
`find_vendor_overlaps` on the snapshot.  The store state is threaded
through explicitly. -/
def confirmShoppingCart (src : SelectedProduct → Nat → Nat → Except Unit (List RawProduct))
    (s : StoreState) : Except Unit CartConfirmationResponse × StoreState :=
  let r := getSelectedProducts s
  if r.1.products.isEmpty then (Except.error (), r.2)
  else (Except.ok (findVendorOverlaps src r.1.products), r.2)

/-! ### Association-list lemmas -/

theorem lookupAssoc_split {V : Type} {l : List (Nat × V)} {k : Nat} {v : V}
    (h : lookupAssoc l k = some v) :
    ∃ l₁ l₂, l = l₁ ++ (k, v) :: l₂ ∧ ∀ e ∈ l₁, e.1 ≠ k := by
  induction l with
  | nil => simp [lookupAssoc] at h
  | cons e rest ih =>
    obtain ⟨a, b⟩ := e
    by_cases hk : a = k
    · subst hk
      simp [lookupAssoc] at h
      subst h
      exact ⟨[], rest, rfl, by simp⟩
    · rw [lookupAssoc, if_neg hk] at h
      obtain ⟨l₁, l₂, hl, hne⟩ := ih h
      exact ⟨(a, b) :: l₁, l₂, by simp [hl], by
        intro e he
        rcases List.mem_cons.mp he with h1 | h1
        · subst h1; exact hk
        · exact hne e h1⟩

theorem eraseKey_split {V : Type} {l₁ : List (Nat × V)} (l₂ : List (Nat × V))
    {k : Nat} (v : V) (h : ∀ e ∈ l₁, e.1 ≠ k) :
    eraseKey (l₁ ++ (k, v) :: l₂) k = l₁ ++ l₂ := by
  induction l₁ with
  | nil => simp [eraseKey]
  | cons e rest ih =>
    obtain ⟨a, b⟩ := e
    have ha : a ≠ k := h (a, b) (List.mem_cons_self _ _)
    simp only [List.cons_append, eraseKey, if_neg ha, List.append_eq]
    rw [ih (fun e he => h e (List.mem_cons_of_mem _ he))]

theorem updateAssoc_of_fresh {V : Type} {l : List (Nat × V)} {k : Nat} (v : V)
    (h : ∀ e ∈ l, e.1 ≠ k) : updateAssoc l k v = l ++ [(k, v)] := by
  induction l with
  | nil => simp [updateAssoc]
  | cons e rest ih =>
    obtain ⟨a, b⟩ := e
    have ha : a ≠ k := h (a, b) (List.mem_cons_self _ _)
    simp only [updateAssoc, if_neg ha, List.cons_append]
    rw [ih (fun e he => h e (List.mem_cons_of_mem _ he))]

theorem lookupAssoc_append_singleton {V : Type} {l : List (Nat × V)} {k : Nat}
    (v : V) (h : ∀ e ∈ l, e.1 ≠ k) : lookupAssoc (l ++ [(k, v)]) k = some v := by
  induction l with
  | nil => simp [lookupAssoc]
  | cons e rest ih =>
    obtain ⟨a, b⟩ := e
    have ha : a ≠ k := h (a, b) (List.mem_cons_self _ _)
    simp only [List.cons_append, lookupAssoc, if_neg ha]
    exact ih (fun e he => h e (List.mem_cons_of_mem _ he))

theorem containsKey_iff {V : Type} {l : List (Nat × V)} {k : Nat} :
    containsKey l k = true ↔ ∃ e ∈ l, e.1 = k := by
  simp [containsKey, List.any_eq_true, beq_iff_eq]

theorem lookupAssoc_mem {V : Type} {l : List (Nat × V)} {k : Nat} {v : V}
    (hnd : (l.map (fun e => e.1)).Nodup) (hm : (k, v) ∈ l) :
    lookupAssoc l k = some v := by
  induction l with
  | nil => simp at hm
  | cons e rest ih =>
    obtain ⟨a, b⟩ := e
    simp only [List.map_cons, List.nodup_cons] at hnd
    rcases List.mem_cons.mp hm with h1 | h1
    · rw [← h1]; simp [lookupAssoc]
    · have hak : a ≠ k := by
        intro hak
        subst hak
        exact hnd.1 (List.mem_map.mpr ⟨(a, v), h1, rfl⟩)
      rw [lookupAssoc, if_neg hak]
      exact ih hnd.2 h1

theorem lookupSession_update_self {l : List (String × Nat)} {k : String} (v : Nat) :
    lookupSession (updateSession l k v) k = some v := by
  induction l with
  | nil => simp [updateSession, lookupSession]
  | cons e rest ih =>
    obtain ⟨a, b⟩ := e
    by_cases hk : a = k
    · subst hk; simp [updateSession, lookupSession]
    · simp [updateSession, lookupSession, hk, ih]

/-! ### `findByProductId` lemmas -/

theorem findByProductId_eq_none {l : List (Nat × SelectedProduct)} {pid : Nat}
    (h : ∀ e ∈ l, e.2.product_id ≠ pid) : findByProductId l pid = none := by
  induction l with
  | nil => rfl
  | cons e rest ih =>
    obtain ⟨a, b⟩ := e
    have hb : b.product_id ≠ pid := h (a, b) (List.mem_cons_self _ _)
    simp only [findByProductId, if_neg hb]
    exact ih (fun e he => h e (List.mem_cons_of_mem _ he))

theorem findByProductId_isSome {l : List (Nat × SelectedProduct)} {pid : Nat}
    (h : ∃ e ∈ l, e.2.product_id = pid) :
    ∃ p, findByProductId l pid = some p ∧ p.product_id = pid ∧ ∃ sid, (sid, p) ∈ l := by
  induction l with
  | nil => simp at h
  | cons e rest ih =>
    obtain ⟨a, b⟩ := e
    by_cases hb : b.product_id = pid
    · exact ⟨b, by simp [findByProductId, hb], hb, a, List.mem_cons_self _ _⟩
    · simp only [findByProductId, if_neg hb]
      obtain ⟨e', he', hpe'⟩ := h
      rcases List.mem_cons.mp he' with h1 | h1
      · subst h1; exact absurd hpe' hb
      · obtain ⟨p, hp, hpid, sid, hmem⟩ := ih ⟨e', h1, hpe'⟩
        exact ⟨p, hp, hpid, sid, List.mem_cons_of_mem _ hmem⟩

/-! ### Demo values used by witnesses -/

/-- A concrete active selection used in witnesses. -/
def demoSel1 : SelectedProduct :=
  ⟨1, 7, "lamp", 3, "VendorA", 2, none, 5, some "sess1"⟩

/-- A second concrete active selection used in witnesses. -/
def demoSel2 : SelectedProduct :=
  ⟨2, 8, "rug", 4, "VendorB", 2, none, 5, none⟩

/-- A concrete store holding `demoSel1` and `demoSel2`. -/
def demoStore : StoreState :=
  ⟨[(1, demoSel1), (2, demoSel2)], [("sess1", 1)], 3⟩

/-! ### C5 — idempotent select -/

/-- C5: if the store already holds an active selection with the
candidate's `itemId`, `select` returns that existing selection unchanged
and leaves the whole store state (selections, slot mappings, counter)
untouched. -/
theorem select_idempotent_on_item_id (s : StoreState) (req : SelectProductRequest)
    (now : Nat) (h : ∃ e ∈ s.selected, e.2.product_id = req.product_id) :
    ∃ ex, selectProduct s req now = (ex, s) ∧ ex.product_id = req.product_id ∧
      ∃ sid, (sid, ex) ∈ s.selected := by
  obtain ⟨p, hp, hpid, sid, hmem⟩ := findByProductId_isSome h
  refine ⟨p, ?_, hpid, sid, hmem⟩
  unfold selectProduct
  rw [hp]

/-- Witness for C5 at a concrete store and request. -/
theorem select_idempotent_on_item_id_witness :
    ∃ ex, selectProduct demoStore ⟨7, "lamp", 3, "VendorA", 2, none, none⟩ 11 =
        (ex, demoStore) ∧
      ex.product_id = 7 ∧ ∃ sid, (sid, ex) ∈ demoStore.selected :=
  select_idempotent_on_item_id demoStore ⟨7, "lamp", 3, "VendorA", 2, none, none⟩ 11
    (by decide)

/-! ### C7 — remove -/

/-- C7: `remove(itemId)` returns `false` and leaves the store completely
unchanged when no active selection has that `itemId`; when one does (in a
well-formed store it is unique), it returns `true` and removes exactly
that entry, leaving every other selection and all slot mappings as they
were. -/
theorem remove_product_spec (s : StoreState) (pid : Nat) :
    ((∀ e ∈ s.selected, e.2.product_id ≠ pid) → removeProduct s pid = (false, s)) ∧
    (StoreWF s → ∀ sid p, (sid, p) ∈ s.selected → p.product_id = pid →
      (removeProduct s pid).1 = true ∧
      (removeProduct s pid).2.sessions = s.sessions ∧
      (removeProduct s pid).2.nextId = s.nextId ∧
      ∃ l₁ l₂, s.selected = l₁ ++ (sid, p) :: l₂ ∧
        (removeProduct s pid).2.selected = l₁ ++ l₂) := by
  constructor
  · intro h
    unfold removeProduct
    rw [List.find?_eq_none.mpr ?_]
    intro e he
    simpa using h e he
  · intro hwf sid p hmem hpid
    obtain ⟨hkeys, hpids, _⟩ := hwf
    have hfind : ∃ e, s.selected.find? (fun e => e.2.product_id == pid) = some e := by
      have : (s.selected.find? (fun e => e.2.product_id == pid)).isSome := by
        rw [List.find?_isSome]
        exact ⟨(sid, p), hmem, by simpa using hpid⟩
      exact Option.isSome_iff_exists.mp this
    obtain ⟨e, he⟩ := hfind
    have heq : e = (sid, p) := by
      have hemem : e ∈ s.selected := List.mem_of_find?_eq_some he
      have hepid : e.2.product_id = pid := by
        simpa using List.find?_some he
      have := List.inj_on_of_nodup_map hpids hemem hmem
      exact this (by rw [hepid, hpid])
    subst heq
    have hlook : lookupAssoc s.selected sid = some p := lookupAssoc_mem hkeys hmem
    obtain ⟨l₁, l₂, hsplit, hne⟩ := lookupAssoc_split hlook
    have herase : eraseKey s.selected sid = l₁ ++ l₂ := by
      rw [hsplit]; exact eraseKey_split l₂ p hne
    unfold removeProduct
    rw [he]
    exact ⟨rfl, rfl, rfl, l₁, l₂, hsplit, herase⟩

/-- Witness for C7: removing an absent id is a no-op returning `false`;
removing a present id removes exactly that selection and returns `true`. -/
theorem remove_product_spec_witness :
    removeProduct demoStore 99 = (false, demoStore) ∧
      (removeProduct demoStore 7).1 = true ∧
      (removeProduct demoStore 7).2.sessions = demoStore.sessions ∧
      (removeProduct demoStore 7).2.nextId = demoStore.nextId ∧
      ∃ l₁ l₂, demoStore.selected = l₁ ++ (1, demoSel1) :: l₂ ∧
        (removeProduct demoStore 7).2.selected = l₁ ++ l₂ := by
  refine ⟨(remove_product_spec demoStore 99).1 (by decide), ?_⟩
  exact (remove_product_spec demoStore 7).2 (by decide) 1 demoSel1 (by decide) (by decide)

/-! ### C4 — list ordering -/

theorem tsLE_trans : ∀ a b c : SelectedProduct, tsLE a b → tsLE b c → tsLE a c := by
  intro a b c hab hbc
  simp only [tsLE, decide_eq_true_eq] at *
  omega

theorem tsLE_total : ∀ a b : SelectedProduct, tsLE a b || tsLE b a := by
  intro a b
  simp only [tsLE, Bool.or_eq_true, decide_eq_true_eq]
  omega

/-- First selection of the C4 counterexample run. -/
def c4SelA : SelectedProduct := ⟨1, 1, "A", 1, "VA", 0, none, 5, none⟩

/-- Second selection of the C4 counterexample run, inserted later with
the same timestamp. -/
def c4SelB : SelectedProduct := ⟨2, 2, "B", 1, "VB", 0, none, 5, none⟩

/-- The store after selecting item 1 and then item 2, both at time 5. -/
def c4Store : StoreState :=
  (selectProduct (selectProduct initialStore ⟨1, "A", 1, "VA", 0, none, none⟩ 5).2
    ⟨2, "B", 1, "VB", 0, none, none⟩ 5).2

/-- Counterexample to C4's tie-break: after selecting item 1 and then
item 2 with equal timestamps, `list()` returns the earlier-inserted
selection first — the later-inserted one is not first, contradicting the
claimed "later-inserted first" tie-break (Python's stable
`sort(reverse=True)` keeps equal keys in insertion order). -/
theorem list_tie_break_counterexample :
    (getSelectedProducts c4Store).1.products = [c4SelA, c4SelB] ∧
      c4SelA.selected_at = c4SelB.selected_at ∧
      c4SelA.id < c4SelB.id ∧
      (getSelectedProducts c4Store).1.products.head? ≠ some c4SelB := by
  have hsel : c4Store.selected.map (fun e => e.2) = [c4SelA, c4SelB] := by decide
  have hsort : ([c4SelA, c4SelB] : List SelectedProduct).mergeSort tsLE =
      [c4SelA, c4SelB] := List.mergeSort_of_sorted (by decide)
  have hprod : (getSelectedProducts c4Store).1.products = [c4SelA, c4SelB] := by
    simp only [getSelectedProducts]
    rw [hsel, hsort]
  refine ⟨hprod, rfl, by decide, ?_⟩
  rw [hprod]
  decide

/-- C4 (amended): `list()` returns all active selections sorted by
`selectedAt` descending; when timestamps tie, selections keep their
insertion order, the earlier-inserted one first (stability, stated as
preservation of each equal-timestamp fiber); `total_count` is the number
of active selections. -/
theorem list_sorted_desc_stable (s : StoreState) :
    ((getSelectedProducts s).1.products).Perm (s.selected.map (fun e => e.2)) ∧
    ((getSelectedProducts s).1.products).Pairwise
      (fun a b => b.selected_at ≤ a.selected_at) ∧
    (∀ t : Nat, ((getSelectedProducts s).1.products).filter
        (fun p => p.selected_at == t) =
      (s.selected.map (fun e => e.2)).filter (fun p => p.selected_at == t)) ∧
    (getSelectedProducts s).1.total_count = s.selected.length := by
  refine ⟨List.mergeSort_perm _ _, ?_, ?_, ?_⟩
  · exact (List.sorted_mergeSort tsLE_trans tsLE_total _).imp
      (fun h => by simpa [tsLE] using h)
  · intro t
    set xs := s.selected.map (fun e => e.2) with hxs
    have hpair : (xs.filter (fun p => p.selected_at == t)).Pairwise
        (fun a b => tsLE a b) := by
      apply List.pairwise_of_forall_mem_list
      intro a ha b hb
      have ha' : a.selected_at = t := by simpa using List.of_mem_filter ha
      have hb' : b.selected_at = t := by simpa using List.of_mem_filter hb
      simp [tsLE, ha', hb']
    have hsub : List.Sublist (xs.filter (fun p => p.selected_at == t))
        (xs.mergeSort tsLE) :=
      List.sublist_mergeSort tsLE_trans tsLE_total hpair (List.filter_sublist xs)
    have hsub2 : List.Sublist (xs.filter (fun p => p.selected_at == t))
        ((xs.mergeSort tsLE).filter (fun p => p.selected_at == t)) := by
      have hff : (xs.filter (fun p => p.selected_at == t)).filter
          (fun p => p.selected_at == t) = xs.filter (fun p => p.selected_at == t) :=
        List.filter_eq_self.mpr
          (fun a (ha : a ∈ xs.filter (fun p => p.selected_at == t)) =>
            (List.mem_filter.mp ha).2)
      have := hsub.filter (fun p => p.selected_at == t)
      rwa [hff] at this
    have hlen : (xs.filter (fun p => p.selected_at == t)).length =
        ((xs.mergeSort tsLE).filter (fun p => p.selected_at == t)).length :=
      (((List.mergeSort_perm xs tsLE).filter _).length_eq).symm
    exact (hsub2.eq_of_length hlen).symm
  · simp [getSelectedProducts]

/-! ### C6 — slot replacement -/

/-- Slot owner in the C6 counterexample store. -/
def c6Owner : SelectedProduct := ⟨1, 10, "X", 1, "V1", 0, none, 1, some "k"⟩

/-- A second active selection, holding the item id the C6 counterexample
request re-selects. -/
def c6Other : SelectedProduct := ⟨2, 20, "Y", 1, "V2", 0, none, 2, none⟩

/-- The C6 counterexample store: slot "k" is owned by `c6Owner`. -/
def c6Store : StoreState := ⟨[(1, c6Owner), (2, c6Other)], [("k", 1)], 3⟩

/-- The C6 counterexample request: slot "k", but an item id that is
already active under a different selection. -/
def c6Req : SelectProductRequest := ⟨20, "Y", 1, "V2", 0, none, some "k"⟩

/-- Counterexample to C6 as stated: slot "k" is owned by the active
selection `c6Owner`, the request uses slot "k" with a different item id
(20 ≠ 10) — yet, because item 20 is already active under another
selection, `select` takes the idempotence branch: the store is unchanged,
the slot's prior selection is not removed and its item id 10 is still
present. -/
theorem select_slot_replacement_counterexample :
    sessionKey c6Req = some "k" ∧
      lookupSession c6Store.sessions "k" = some 1 ∧
      lookupAssoc c6Store.selected 1 = some c6Owner ∧
      c6Owner.product_id ≠ c6Req.product_id ∧
      (selectProduct c6Store c6Req 9).2 = c6Store ∧
      ∃ e ∈ (selectProduct c6Store c6Req 9).2.selected,
        e.2.product_id = c6Owner.product_id := by
  decide

/-- C6 (amended): in a well-formed store where a non-empty `slotKey` is
owned by an active selection, a `select` whose candidate carries that
slot key and an item id *that is not itself already active* removes the
slot's prior selection and inserts the new one: the total count is
unchanged, the old item id is gone, the new item id is present, and the
slot mapping now points at the newly inserted selection. -/
theorem select_slot_replacement (s : StoreState) (req : SelectProductRequest)
    (now : Nat) (k : String) (sid : Nat) (owner : SelectedProduct)
    (hwf : StoreWF s)
    (hkey : sessionKey req = some k)
    (hsess : lookupSession s.sessions k = some sid)
    (howner : lookupAssoc s.selected sid = some owner)
    (hfresh : ∀ e ∈ s.selected, e.2.product_id ≠ req.product_id) :
    (selectProduct s req now).2.selected.length = s.selected.length ∧
    (∀ e ∈ (selectProduct s req now).2.selected,
      e.2.product_id ≠ owner.product_id) ∧
    (∃ e ∈ (selectProduct s req now).2.selected,
      e.2.product_id = req.product_id) ∧
    lookupSession (selectProduct s req now).2.sessions k = some s.nextId ∧
    lookupAssoc (selectProduct s req now).2.selected s.nextId =
      some (selectProduct s req now).1 ∧
    (selectProduct s req now).1.product_id = req.product_id := by
  obtain ⟨hkeys, hpids, hids⟩ := hwf
  have hfindnone : findByProductId s.selected req.product_id = none :=
    findByProductId_eq_none hfresh
  obtain ⟨l₁, l₂, hsplit, hne⟩ := lookupAssoc_split howner
  have hsidmem : (sid, owner) ∈ s.selected := by
    rw [hsplit]; exact List.mem_append_right _ (List.mem_cons_self _ _)
  have hsid0 : ¬(sid = 0) := by
    have := (hids (sid, owner) hsidmem).1
    omega
  have hcontains : containsKey s.selected sid = true :=
    containsKey_iff.mpr ⟨(sid, owner), hsidmem, rfl⟩
  have herase : eraseKey s.selected sid = l₁ ++ l₂ := by
    rw [hsplit]; exact eraseKey_split l₂ owner hne
  have hmem12 : ∀ e, e ∈ l₁ ++ l₂ → e ∈ s.selected := by
    intro e he
    rw [hsplit]
    rcases List.mem_append.mp he with h1 | h1
    · exact List.mem_append_left _ h1
    · exact List.mem_append_right _ (List.mem_cons_of_mem _ h1)
  have hfreshKey : ∀ e ∈ l₁ ++ l₂, e.1 ≠ s.nextId := by
    intro e he
    have := (hids e (hmem12 e he)).2
    omega
  set newP : SelectedProduct :=
    ⟨s.nextId, req.product_id, req.product_name, req.vendor_id, req.vendor_name,
      req.status_id, req.image_url, now, req.search_session_id⟩ with hnewP
  have hupd : updateAssoc (l₁ ++ l₂) s.nextId newP = (l₁ ++ l₂) ++ [(s.nextId, newP)] :=
    updateAssoc_of_fresh newP hfreshKey
  have hrun : selectProduct s req now =
      (newP, ⟨(l₁ ++ l₂) ++ [(s.nextId, newP)],
        updateSession s.sessions k s.nextId, s.nextId + 1⟩) := by
    unfold selectProduct
    rw [hfindnone]
    simp only [hkey, hsess, if_neg hsid0, hcontains, if_true, herase, hupd]
  have hpids2 : owner.product_id ∉
      (l₁.map (fun e => e.2.product_id) ++ l₂.map (fun e => e.2.product_id)) := by
    rw [hsplit, List.map_append, List.map_cons] at hpids
    exact (List.nodup_cons.mp (List.nodup_middle.mp hpids)).1
  rw [hrun]
  refine ⟨?_, ?_, ?_, ?_, ?_, rfl⟩
  · simp [hsplit]
  · intro e he heq
    rcases List.mem_append.mp he with h1 | h1
    · apply hpids2
      rw [← heq]
      rcases List.mem_append.mp h1 with h2 | h2
      · exact List.mem_append_left _ (List.mem_map.mpr ⟨e, h2, rfl⟩)
      · exact List.mem_append_right _ (List.mem_map.mpr ⟨e, h2, rfl⟩)
    · have he2 : e = (s.nextId, newP) := by simpa using h1
      rw [he2] at heq
      exact hfresh (sid, owner) hsidmem (by simpa [hnewP] using heq.symm)
  · exact ⟨(s.nextId, newP), by simp, rfl⟩
  · exact lookupSession_update_self s.nextId
  · exact lookupAssoc_append_singleton newP hfreshKey

/-- Witness for C6 (amended) on a concrete well-formed store: slot
"sess1" is owned by `demoSel1` and the request re-selects item 9 under
that slot. -/
theorem select_slot_replacement_witness :
    ((selectProduct demoStore ⟨9, "vase", 5, "VendorC", 2, none, some "sess1"⟩ 11).2
        : StoreState).selected.length = demoStore.selected.length ∧
      (∀ e ∈ (selectProduct demoStore
          ⟨9, "vase", 5, "VendorC", 2, none, some "sess1"⟩ 11).2.selected,
        e.2.product_id ≠ demoSel1.product_id) ∧
      (∃ e ∈ (selectProduct demoStore
          ⟨9, "vase", 5, "VendorC", 2, none, some "sess1"⟩ 11).2.selected,
        e.2.product_id = (⟨9, "vase", 5, "VendorC", 2, none, some "sess1"⟩
          : SelectProductRequest).product_id) ∧
      lookupSession (selectProduct demoStore
          ⟨9, "vase", 5, "VendorC", 2, none, some "sess1"⟩ 11).2.sessions "sess1" =
        some demoStore.nextId ∧
      lookupAssoc (selectProduct demoStore
          ⟨9, "vase", 5, "VendorC", 2, none, some "sess1"⟩ 11).2.selected
          demoStore.nextId =
        some (selectProduct demoStore
          ⟨9, "vase", 5, "VendorC", 2, none, some "sess1"⟩ 11).1 ∧
      (selectProduct demoStore
          ⟨9, "vase", 5, "VendorC", 2, none, some "sess1"⟩ 11).1.product_id =
        (⟨9, "vase", 5, "VendorC", 2, none, some "sess1"⟩
          : SelectProductRequest).product_id :=
  select_slot_replacement demoStore ⟨9, "vase", 5, "VendorC", 2, none, some "sess1"⟩
    11 "sess1" 1 demoSel1 (by decide) (by decide) (by decide) (by decide) (by decide)

/-! ### C8 — page normalization -/

/-- A raw record carrying both identifiers, but with item identifier 0. -/
def c8ZeroId : RawProduct :=
  ⟨some 0, some "thing", some 5, ⟨some 1, some "V"⟩, ⟨none, none⟩, ⟨some 2⟩⟩

/-- A raw record that is kept, exercising the documented defaults. -/
def c8Kept : RawProduct :=
  ⟨some 5, none, none, ⟨some 3, none⟩, ⟨none, some "img"⟩, ⟨none⟩⟩

/-- The normalized item `c8Kept` parses to. -/
def c8KeptOut : SimilarProduct :=
  ⟨5, "", 0, 3, "", 0, some "img", "https://basalam.com/p/5", 1⟩

/-- Counterexample to C8 as stated: a raw record that *has* both an item
identifier and a vendor identifier (both fields present) is nevertheless
dropped, because the item identifier is `0` and Python's `if not
product_id` treats `0` as missing. -/
theorem parse_keeps_identifier_records_counterexample :
    c8ZeroId.id.isSome ∧ c8ZeroId.vendor.id.isSome ∧
      parseSimilarProductsResponse [c8ZeroId] 1 = [] := by
  decide

/-- C8 (amended): normalization keeps exactly the records whose item
identifier and vendor identifier are both present *and non-zero* (a zero
identifier is treated as missing, like Python truthiness); dropped
records produce no error and leave the rest of the page intact; price
defaults to 0 when absent; the image defaults to the secondary field
when the primary is absent; the canonical link is the fixed base URL
joined with the item's identifier, a deterministic function of `itemId`
alone. -/
theorem parse_normalization (origId : Nat) (r : RawProduct) :
    ((parseSimilarProduct origId r).isSome ↔
      (∃ p, r.id = some p ∧ p ≠ 0) ∧ (∃ v, r.vendor.id = some v ∧ v ≠ 0)) ∧
    (∀ s, parseSimilarProduct origId r = some s →
      r.id = some s.id ∧
      (r.price = none → s.price = 0) ∧
      (r.photo.MEDIUM = none → s.image_url = r.photo.SMALL) ∧
      s.basalam_url = "https://basalam.com/p/" ++ toString s.id ∧
      s.original_product_id = origId ∧
      ∀ rest, parseSimilarProductsResponse (r :: rest) origId =
        s :: parseSimilarProductsResponse rest origId) ∧
    (parseSimilarProduct origId r = none →
      ∀ rest, parseSimilarProductsResponse (r :: rest) origId =
        parseSimilarProductsResponse rest origId) := by
  refine ⟨?_, ?_, ?_⟩
  · rcases r with ⟨rid, rname, rprice, ⟨vid, vname⟩, ⟨pm, psm⟩, ⟨stid⟩⟩
    cases rid with
    | none => simp [parseSimilarProduct]
    | some pid =>
      by_cases hpid : pid = 0
      · simp [parseSimilarProduct, hpid]
      · cases vid with
        | none => simp [parseSimilarProduct, hpid]
        | some v =>
          by_cases hv : v = 0
          · simp [parseSimilarProduct, hpid, hv]
          · simp [parseSimilarProduct, hpid, hv]
  · intro s hs
    rcases r with ⟨rid, rname, rprice, ⟨vid, vname⟩, ⟨pm, psm⟩, ⟨stid⟩⟩
    cases rid with
    | none => simp [parseSimilarProduct] at hs
    | some pid =>
      by_cases hpid : pid = 0
      · simp [parseSimilarProduct, hpid] at hs
      · cases vid with
        | none => simp [parseSimilarProduct, hpid] at hs
        | some v =>
          by_cases hv : v = 0
          · simp [parseSimilarProduct, hpid, hv] at hs
          · rw [parseSimilarProduct] at hs
            simp only [if_neg hpid, if_neg hv, Option.some.injEq] at hs
            subst hs
            refine ⟨rfl, ?_, ?_, rfl, rfl, ?_⟩
            · intro hp
              have hp' : rprice = none := hp
              rw [hp']; rfl
            · intro hm
              have hm' : pm = none := hm
              rw [hm']; rfl
            · intro rest
              simp [parseSimilarProductsResponse, List.filterMap_cons,
                parseSimilarProduct, if_neg hpid, if_neg hv]
  · intro hnone rest
    simp [parseSimilarProductsResponse, List.filterMap_cons, hnone]

/-- Witness for C8 (amended): the kept record `c8Kept` gets price 0, the
secondary image, and the canonical link; the zero-id record `c8ZeroId`
is dropped leaving the rest of the page intact. -/
theorem parse_normalization_witness :
    c8KeptOut.price = 0 ∧ c8KeptOut.image_url = c8Kept.photo.SMALL ∧
      c8KeptOut.basalam_url = "https://basalam.com/p/" ++ toString c8KeptOut.id ∧
      c8KeptOut.original_product_id = 1 ∧
      parseSimilarProductsResponse [c8ZeroId, c8Kept] 1 =
        parseSimilarProductsResponse [c8Kept] 1 := by
  have hk := (parse_normalization 1 c8Kept).2.1 c8KeptOut (by decide)
  have hd := (parse_normalization 1 c8ZeroId).2.2 (by decide) [c8Kept]
  exact ⟨hk.2.1 rfl, hk.2.2.1 rfl, hk.2.2.2.1, hk.2.2.2.2.1, hd⟩

/-! ### Fetcher lemmas (C2, C3, C10) -/

/-- A window of `n` consecutive items of an abstract normalized item
stream, starting at offset `o`.  Used to phrase source behaviours. -/
def streamSlice (stream : Nat → SimilarProduct) (o n : Nat) : List SimilarProduct :=
  (List.range n).map (fun i => stream (o + i))

/-- Ceiling division `ceil(a / b)` on naturals. -/
def ceilDiv (a b : Nat) : Nat := (a + b - 1) / b

theorem streamSlice_length (stream : Nat → SimilarProduct) (o n : Nat) :
    (streamSlice stream o n).length = n := by
  simp [streamSlice]

theorem streamSlice_append (stream : Nat → SimilarProduct) (o a b : Nat) :
    streamSlice stream o (a + b) =
      streamSlice stream o a ++ streamSlice stream (o + a) b := by
  unfold streamSlice
  rw [List.range_add, List.map_append, List.map_map]
  congr 1
  apply List.map_congr_left
  intro i _
  simp only [Function.comp_apply]
  congr 1
  omega

theorem ceilDiv_zero (ps : Nat) (hps : 0 < ps) : ceilDiv 0 ps = 0 := by
  unfold ceilDiv
  exact Nat.div_eq_of_lt (by omega)

theorem ceilDiv_succ (r ps : Nat) (hps : 0 < ps) :
    ceilDiv (r + 1) ps = (r + ps) / ps := by
  unfold ceilDiv
  congr 1
  omega

theorem ceilDiv_pos_eq (r ps : Nat) (hps : 0 < ps) (hr : 1 ≤ r) :
    ceilDiv r ps = ceilDiv (r - ps) ps + 1 := by
  by_cases hle : ps ≤ r
  · unfold ceilDiv
    have h1 : r + ps - 1 = (r - ps + ps - 1) + ps := by omega
    rw [h1, Nat.add_div_right _ hps]
  · have h0 : r - ps = 0 := by omega
    rw [h0, ceilDiv_zero ps hps]
    unfold ceilDiv
    have := Nat.div_eq_of_lt_le (k := 1) (n := ps) (m := r + ps - 1)
    omega

theorem ceilDiv_le (r ps : Nat) (hps : 0 < ps) : ceilDiv r ps ≤ r := by
  cases r with
  | zero => rw [ceilDiv_zero ps hps]
  | succ r =>
    rw [ceilDiv_succ r ps hps, Nat.add_div_right _ hps]
    have := Nat.div_le_self r ps
    omega

theorem fetchLoop_of_le (page : Nat → Nat → List SimilarProduct) (cap ps : Nat)
    (fuel : Nat) (acc : List SimilarProduct) (off : Nat) (h : cap ≤ acc.length) :
    fetchLoop page cap ps fuel acc off = (acc, []) := by
  cases fuel with
  | zero => rfl
  | succ fuel => simp [fetchLoop, h]

/-! ### C10 — the cap is never exceeded -/

/-- C10: for every source behaviour (including pages returning more items
than requested) the fetch result never holds more than `cap` items; with
the default cap, never more than 100. -/
theorem fetch_never_exceeds_cap (page : Nat → Nat → List SimilarProduct)
    (cap ps : Nat) :
    (findSimilarProductsForItem page cap ps).length ≤ cap ∧
    (findSimilarProductsForItem page maxSimilarProductsPerItem
      defaultPageSize).length ≤ 100 := by
  constructor
  · simp only [findSimilarProductsForItem, List.length_take]
    omega
  · simp only [findSimilarProductsForItem, List.length_take, maxSimilarProductsPerItem]
    omega

/-! ### C2 — full-source pagination -/

theorem fetchLoop_full_stream (stream : Nat → SimilarProduct)
    (page : Nat → Nat → List SimilarProduct) (cap ps : Nat) (hps : 0 < ps)
    (hpage : ∀ o s, page o s = streamSlice stream o (min s (cap - o))) :
    ∀ fuel j acc, acc.length = j * ps → ceilDiv (cap - j * ps) ps ≤ fuel →
      fetchLoop page cap ps fuel acc (j * ps) =
        (acc ++ streamSlice stream (j * ps) (cap - j * ps),
         (List.range (ceilDiv (cap - j * ps) ps)).map
           (fun i => ((j + i) * ps, min ps (cap - (j + i) * ps)))) := by
  intro fuel
  induction fuel with
  | zero =>
    intro j acc hacc hfuel
    have h0 : cap - j * ps = 0 := by
      by_contra h
      have h1 : 1 ≤ ceilDiv (cap - j * ps) ps := by
        unfold ceilDiv
        calc 1 = ps / ps := (Nat.div_self hps).symm
        _ ≤ (cap - j * ps + ps - 1) / ps := Nat.div_le_div_right (by omega)
      omega
    rw [h0, ceilDiv_zero ps hps]
    simp [fetchLoop, streamSlice]
  | succ fuel ih =>
    intro j acc hacc hfuel
    by_cases hdone : cap ≤ j * ps
    · have h0 : cap - j * ps = 0 := by omega
      rw [fetchLoop_of_le page cap ps _ acc _ (by omega), h0, ceilDiv_zero ps hps]
      simp [streamSlice]
    · have hr1 : 1 ≤ cap - j * ps := by omega
      simp only [fetchLoop, hacc, if_neg hdone]
      have hmin : min (min ps (cap - j * ps)) (cap - j * ps) = min ps (cap - j * ps) := by
        rw [min_assoc, min_self]
      rw [hpage, hmin]
      have hlen : (streamSlice stream (j * ps) (min ps (cap - j * ps))).length =
          min ps (cap - j * ps) := streamSlice_length _ _ _
      have hminpos : 0 < min ps (cap - j * ps) := lt_min hps hr1
      have hnonempty : (streamSlice stream (j * ps) (min ps (cap - j * ps))).isEmpty
          = false := by
        rw [List.isEmpty_eq_false_iff_exists_mem]
        exact ⟨stream (j * ps + 0), by
          unfold streamSlice
          exact List.mem_map.mpr ⟨0, List.mem_range.mpr hminpos, rfl⟩⟩
      rw [hnonempty]
      simp only [Bool.false_eq_true, if_false, hlen, lt_irrefl, if_neg (lt_irrefl _)]
      by_cases hps_le : ps ≤ cap - j * ps
      · have hsize : min ps (cap - j * ps) = ps := Nat.min_eq_left hps_le
        rw [hsize]
        have hoff : j * ps + ps = (j + 1) * ps := by ring
        have hacc2 : (acc ++ streamSlice stream (j * ps) ps).length = (j + 1) * ps := by
          rw [List.length_append, hacc, streamSlice_length]; ring
        have hsub : cap - (j + 1) * ps = cap - j * ps - ps := by
          rw [Nat.add_mul, Nat.one_mul, Nat.sub_sub]
        have hfuel2 : ceilDiv (cap - (j + 1) * ps) ps ≤ fuel := by
          rw [hsub]
          have := ceilDiv_pos_eq (cap - j * ps) ps hps hr1
          omega
        rw [hoff, ih (j + 1) (acc ++ streamSlice stream (j * ps) ps) hacc2 hfuel2]
        simp only [Prod.mk.injEq]
        refine ⟨?_, ?_⟩
        · rw [List.append_assoc]
          congr 1
          rw [hsub]
          have hsplit : cap - j * ps = ps + (cap - j * ps - ps) := by omega
          calc streamSlice stream (j * ps) ps ++
                streamSlice stream ((j + 1) * ps) (cap - j * ps - ps)
              = streamSlice stream (j * ps) ps ++
                streamSlice stream (j * ps + ps) (cap - j * ps - ps) := by rw [hoff]
          _ = streamSlice stream (j * ps) (ps + (cap - j * ps - ps)) :=
              (streamSlice_append stream (j * ps) ps _).symm
          _ = streamSlice stream (j * ps) (cap - j * ps) := by rw [← hsplit]
        · have hc : ceilDiv (cap - j * ps) ps = ceilDiv (cap - (j + 1) * ps) ps + 1 := by
            rw [hsub]
            exact ceilDiv_pos_eq (cap - j * ps) ps hps hr1
          rw [hc, List.range_succ_eq_map, List.map_cons, List.map_map]
          refine List.cons_eq_cons.mpr ⟨?_, ?_⟩
          · rw [Nat.add_zero, hsize]
          · apply List.map_congr_left
            intro i _
            simp only [Function.comp_apply, Nat.succ_eq_add_one]
            have h1 : j + (i + 1) = j + 1 + i := by ring
            rw [h1]
      · have hsize : min ps (cap - j * ps) = cap - j * ps :=
          Nat.min_eq_right (by omega)
        rw [hsize]
        rw [fetchLoop_of_le page cap ps fuel _ _ (by
          rw [List.length_append, hacc, streamSlice_length]; omega)]
        simp only [Prod.mk.injEq]
        refine ⟨trivial, ?_⟩
        have hc1 : ceilDiv (cap - j * ps) ps = 1 := by
          have h2 := ceilDiv_pos_eq (cap - j * ps) ps hps hr1
          have h0 : cap - j * ps - ps = 0 := by omega
          rw [h0, ceilDiv_zero ps hps] at h2
          omega
        rw [hc1]
        rw [show List.range 1 = [0] from rfl]
        simp only [List.map_cons, List.map_nil, Nat.add_zero]
        rw [hsize]

/-- C2: if the external source holds exactly `cap` normalized items and
serves full pages (the page at offset `o` with requested size `s` is the
stream window of `min s (cap - o)` items), the fetch returns exactly
`cap` items — the first `cap` stream items — and issues exactly
`ceil(cap / pageSize)` page requests, the `i`-th at offset `i·ps`
requesting exactly `min(pageSize, cap - accumulated)` items. -/
theorem fetch_full_source (stream : Nat → SimilarProduct)
    (page : Nat → Nat → List SimilarProduct) (cap ps : Nat) (hps : 0 < ps)
    (hpage : ∀ o s, page o s = streamSlice stream o (min s (cap - o))) :
    (findSimilarProductsForItem page cap ps).length = cap ∧
    findSimilarProductsForItem page cap ps = streamSlice stream 0 cap ∧
    (fetchWithTrace page cap ps).2 =
      (List.range (ceilDiv cap ps)).map (fun i => (i * ps, min ps (cap - i * ps))) := by
  have h := fetchLoop_full_stream stream page cap ps hps hpage (cap + 1) 0 []
    (by simp) (by
      simp only [Nat.zero_mul, Nat.sub_zero]
      have := ceilDiv_le cap ps hps
      omega)
  simp only [Nat.zero_mul, Nat.sub_zero, Nat.zero_add, List.nil_append] at h
  have h1 : fetchWithTrace page cap ps =
      (streamSlice stream 0 cap,
       (List.range (ceilDiv cap ps)).map (fun i => (i * ps, min ps (cap - i * ps)))) := by
    rw [fetchWithTrace, h]
  have h2 : findSimilarProductsForItem page cap ps = streamSlice stream 0 cap := by
    rw [findSimilarProductsForItem, h1]
    exact List.take_of_length_le (by rw [streamSlice_length])
  exact ⟨by rw [h2, streamSlice_length], h2, by rw [h1]⟩

/-- A fixed demo normalized item stream for the fetcher witnesses. -/
def demoStream (i : Nat) : SimilarProduct :=
  ⟨i + 1, "p", 0, i + 2, "v", 0, none, "https://basalam.com/p/" ++ toString (i + 1), 7⟩

/-- Witness for C2 at `cap = 5`, `pageSize = 2`: 5 items in 3 requests. -/
theorem fetch_full_source_witness :
    (findSimilarProductsForItem
      (fun o s => streamSlice demoStream o (min s (5 - o))) 5 2).length = 5 ∧
    findSimilarProductsForItem
      (fun o s => streamSlice demoStream o (min s (5 - o))) 5 2 =
      streamSlice demoStream 0 5 ∧
    (fetchWithTrace (fun o s => streamSlice demoStream o (min s (5 - o))) 5 2).2 =
      (List.range (ceilDiv 5 2)).map (fun i => (i * 2, min 2 (5 - i * 2))) :=
  fetch_full_source demoStream (fun o s => streamSlice demoStream o (min s (5 - o)))
    5 2 (by omega) (fun o s => rfl)

/-! ### C3 — early termination on page failure -/

theorem fetchLoop_fail_from (stream : Nat → SimilarProduct)
    (src : Nat → Nat → Except Unit (List RawProduct)) (origId : Nat)
    (cap ps O : Nat) (hps : 0 < ps) (hOcap : O < cap)
    (h1 : ∀ o s, o < O →
      fetchSimilarProductsPage src origId o s = streamSlice stream o s)
    (h2 : ∀ o s, O ≤ o → src o s = Except.error ()) :
    ∀ m fuel j acc, acc.length = j * ps → O = j * ps + m * ps → m + 1 ≤ fuel →
      (fetchLoop (fetchSimilarProductsPage src origId) cap ps fuel acc (j * ps)).1 =
        acc ++ streamSlice stream (j * ps) (m * ps) := by
  intro m
  induction m with
  | zero =>
    intro fuel j acc hacc hO hfuel
    obtain ⟨fuel2, rfl⟩ : ∃ f, fuel = f + 1 := ⟨fuel - 1, by omega⟩
    have hlt : ¬ (cap ≤ j * ps) := by omega
    have hfail : fetchSimilarProductsPage src origId (j * ps)
        (min ps (cap - j * ps)) = [] := by
      unfold fetchSimilarProductsPage
      rw [h2 (j * ps) (min ps (cap - j * ps)) (by omega)]
    simp only [fetchLoop, hacc, if_neg hlt, hfail, List.isEmpty_nil, if_true]
    simp [streamSlice]
  | succ m ih =>
    intro fuel j acc hacc hO hfuel
    obtain ⟨fuel2, rfl⟩ : ∃ f, fuel = f + 1 := ⟨fuel - 1, by omega⟩
    have hlt : ¬ (cap ≤ j * ps) := by
      have : j * ps ≤ O := by omega
      omega
    have hsize : min ps (cap - j * ps) = ps := by
      apply Nat.min_eq_left
      have hj : j * ps + ps ≤ O := by
        have : ps ≤ (m + 1) * ps := by
          have := Nat.le_mul_of_pos_left ps (show 0 < m + 1 by omega)
          omega
        omega
      omega
    have hjO : j * ps < O := by
      have : ps ≤ (m + 1) * ps := Nat.le_mul_of_pos_left ps (by omega)
      omega
    have hpg : fetchSimilarProductsPage src origId (j * ps) ps =
        streamSlice stream (j * ps) ps := h1 (j * ps) ps hjO
    have hne : (streamSlice stream (j * ps) ps).isEmpty = false := by
      rw [List.isEmpty_eq_false_iff_exists_mem]
      exact ⟨stream (j * ps + 0), by
        unfold streamSlice
        exact List.mem_map.mpr ⟨0, List.mem_range.mpr hps, rfl⟩⟩
    simp only [fetchLoop, hacc, if_neg hlt, hsize, hpg, hne, Bool.false_eq_true,
      if_false, streamSlice_length, lt_irrefl, if_neg (lt_irrefl _)]
    have hoff : j * ps + ps = (j + 1) * ps := by ring
    have hacc2 : (acc ++ streamSlice stream (j * ps) ps).length = (j + 1) * ps := by
      rw [List.length_append, hacc, streamSlice_length]; ring
    have hO2 : O = (j + 1) * ps + m * ps := by
      have h3 : (m + 1) * ps = m * ps + ps := by ring
      have h4 : (j + 1) * ps = j * ps + ps := by ring
      omega
    rw [hoff, ih fuel2 (j + 1) (acc ++ streamSlice stream (j * ps) ps) hacc2 hO2
      (by omega)]
    rw [List.append_assoc]
    congr 1
    have hsplit : (m + 1) * ps = ps + m * ps := by ring
    rw [hsplit, streamSlice_append stream (j * ps) ps (m * ps), hoff]

/-- C3: if the source serves normalized full pages below offset `O`
(a multiple of the page size below the cap) and suffers a transport or
parse failure — `Except.error` — on every request from offset `O` on,
the fetch terminates and returns exactly the items accumulated from the
pages before the failing page: the first `O` stream items.  No error
value escapes: the result is a plain list. -/
theorem fetch_stops_at_failing_page (stream : Nat → SimilarProduct)
    (src : Nat → Nat → Except Unit (List RawProduct)) (origId : Nat)
    (cap ps O : Nat) (hps : 0 < ps) (hdvd : ps ∣ O) (hOcap : O < cap)
    (h1 : ∀ o s, o < O →
      fetchSimilarProductsPage src origId o s = streamSlice stream o s)
    (h2 : ∀ o s, O ≤ o → src o s = Except.error ()) :
    findSimilarProductsForItem (fetchSimilarProductsPage src origId) cap ps =
      streamSlice stream 0 O := by
  obtain ⟨m, hm⟩ := hdvd
  have hmps : O = m * ps := by rw [hm]; ring
  have hmlt : m + 1 ≤ cap + 1 := by
    have : m ≤ m * ps := Nat.le_mul_of_pos_right m hps
    omega
  have h := fetchLoop_fail_from stream src origId cap ps O hps hOcap h1 h2
    m (cap + 1) 0 [] (by simp) (by omega) hmlt
  simp only [Nat.zero_mul, List.nil_append] at h
  rw [findSimilarProductsForItem, fetchWithTrace, h, ← hmps]
  exact List.take_of_length_le (by rw [streamSlice_length]; omega)

/-- Raw records that normalize to `demoStream`, for the C3 witness. -/
def demoRaw (i : Nat) : RawProduct :=
  ⟨some (i + 1), some "p", some 0, ⟨some (i + 2), some "v"⟩, ⟨none, none⟩, ⟨some 0⟩⟩

/-- The C3 witness source: full raw pages below offset 2, failure from
offset 2 on. -/
def demoFailSrc (o s : Nat) : Except Unit (List RawProduct) :=
  if o < 2 then Except.ok ((List.range s).map (fun k => demoRaw (o + k)))
  else Except.error ()

theorem demoRaw_parses (i : Nat) :
    parseSimilarProduct 7 (demoRaw i) = some (demoStream i) := by
  simp [demoRaw, parseSimilarProduct, demoStream, pyOrStr]

/-- Witness for C3 at `cap = 5`, `pageSize = 2`, failure from offset 2:
the fetch returns exactly page 1's two normalized items. -/
theorem fetch_stops_at_failing_page_witness :
    findSimilarProductsForItem (fetchSimilarProductsPage demoFailSrc 7) 5 2 =
      streamSlice demoStream 0 2 := by
  apply fetch_stops_at_failing_page demoStream demoFailSrc 7 5 2 2 (by omega)
    ⟨1, by omega⟩ (by omega)
  · intro o s ho
    simp only [fetchSimilarProductsPage, demoFailSrc, if_pos ho]
    unfold parseSimilarProductsResponse streamSlice
    rw [List.filterMap_map]
    rw [List.filterMap_eq_map_iff_forall_eq_some.mpr ?_]
    intro k hk
    simp only [Function.comp_apply]
    exact demoRaw_parses (o + k)
  · intro o s ho
    unfold demoFailSrc
    rw [if_neg (by omega)]

/-! ### C9 — aggregation is a pure function of the snapshot -/

/-- A source that always fails, for witnesses. -/
def failSrcAll : SelectedProduct → Nat → Nat → Except Unit (List RawProduct) :=
  fun _ _ _ => Except.error ()

/-- C9: the confirm flow leaves the selection store unchanged, and the
aggregation outcome is a deterministic function of the snapshot taken at
run start plus the external source's responses: two runs over stores
with equal snapshots and the same source produce identical outcomes. -/
theorem confirm_pure_of_snapshot
    (src : SelectedProduct → Nat → Nat → Except Unit (List RawProduct))
    (s s' : StoreState) :
    (confirmShoppingCart src s).2 = s ∧
    ((getSelectedProducts s).1.products = (getSelectedProducts s').1.products →
      (confirmShoppingCart src s).1 = (confirmShoppingCart src s').1) := by
  constructor
  · simp only [confirmShoppingCart]
    split <;> rfl
  · intro h
    simp only [confirmShoppingCart]
    rw [h]
    split <;> rfl

/-- Witness for C9: a concrete run on `demoStore` with the failing
source, compared against itself. -/
theorem confirm_pure_of_snapshot_witness :
    (confirmShoppingCart failSrcAll demoStore).2 = demoStore ∧
      (confirmShoppingCart failSrcAll demoStore).1 =
        (confirmShoppingCart failSrcAll demoStore).1 :=
  ⟨(confirm_pure_of_snapshot failSrcAll demoStore demoStore).1,
    (confirm_pure_of_snapshot failSrcAll demoStore demoStore).2 rfl⟩

/-! ### C1 — vendor grouping lemmas -/

theorem lookupAssoc_append_some {V : Type} {l l' : List (Nat × V)} {k : Nat} {v : V}
    (h : lookupAssoc l k = some v) : lookupAssoc (l ++ l') k = some v := by
  induction l with
  | nil => simp [lookupAssoc] at h
  | cons e rest ih =>
    obtain ⟨a, b⟩ := e
    by_cases ha : a = k
    · subst ha
      simp [lookupAssoc] at h
      simp [lookupAssoc, h]
    · rw [lookupAssoc, if_neg ha] at h
      simpa [lookupAssoc, ha] using ih h

theorem lookupAssoc_append_none {V : Type} {l : List (Nat × V)} (l' : List (Nat × V))
    {k : Nat} (h : lookupAssoc l k = none) :
    lookupAssoc (l ++ l') k = lookupAssoc l' k := by
  induction l with
  | nil => rfl
  | cons e rest ih =>
    obtain ⟨a, b⟩ := e
    by_cases ha : a = k
    · simp [lookupAssoc, ha] at h
    · rw [lookupAssoc, if_neg ha] at h
      simpa [lookupAssoc, ha] using ih h

theorem lookupAssoc_some_mem {V : Type} {l : List (Nat × V)} {k : Nat} {v : V}
    (h : lookupAssoc l k = some v) : (k, v) ∈ l := by
  obtain ⟨l₁, l₂, hl, -⟩ := lookupAssoc_split h
  rw [hl]
  exact List.mem_append_right _ (List.mem_cons_self _ _)

theorem containsKey_eq_isSome {V : Type} (l : List (Nat × V)) (k : Nat) :
    containsKey l k = (lookupAssoc l k).isSome := by
  induction l with
  | nil => rfl
  | cons e rest ih =>
    obtain ⟨a, b⟩ := e
    by_cases ha : a = k
    · simp [containsKey, lookupAssoc, ha]
    · simp [containsKey, lookupAssoc, ha, ← ih]

theorem lookup_addappend (acc : List (Nat × List SimilarProduct))
    (p : SimilarProduct) (vid : Nat) :
    lookupAssoc (acc.map (fun g => if g.1 = p.vendor_id then (g.1, g.2 ++ [p]) else g))
        vid =
      if vid = p.vendor_id then (lookupAssoc acc vid).map (fun l => l ++ [p])
      else lookupAssoc acc vid := by
  induction acc with
  | nil => simp only [List.map_nil, lookupAssoc]; split <;> rfl
  | cons e rest ih =>
    obtain ⟨a, g⟩ := e
    simp only [List.map_cons]
    by_cases hav : a = p.vendor_id
    · rw [if_pos hav]
      by_cases hv : vid = a
      · subst hv
        rw [lookupAssoc, if_pos rfl, if_pos hav, lookupAssoc, if_pos rfl]
        rfl
      · have hvp : ¬(vid = p.vendor_id) := by rw [← hav]; exact hv
        rw [lookupAssoc, if_neg (fun hh => hv hh.symm), ih, if_neg hvp, if_neg hvp,
          lookupAssoc, if_neg (fun hh => hv hh.symm)]
    · rw [if_neg hav]
      by_cases hv : vid = a
      · have hvp : ¬(vid = p.vendor_id) := by rw [hv]; exact hav
        rw [lookupAssoc, if_pos hv.symm, if_neg hvp, lookupAssoc, if_pos hv.symm]
      · by_cases hvp : vid = p.vendor_id
        · rw [lookupAssoc, if_neg (fun hh => hv hh.symm), ih, if_pos hvp, if_pos hvp,
            lookupAssoc, if_neg (fun hh => hv hh.symm)]
        · rw [lookupAssoc, if_neg (fun hh => hv hh.symm), ih, if_neg hvp, if_neg hvp,
            lookupAssoc, if_neg (fun hh => hv hh.symm)]

theorem keys_mapAppend (acc : List (Nat × List SimilarProduct)) (p : SimilarProduct) :
    (acc.map (fun g => if g.1 = p.vendor_id then (g.1, g.2 ++ [p]) else g)).map
        (fun e => e.1) =
      acc.map (fun e => e.1) := by
  rw [List.map_map]
  apply List.map_congr_left
  intro g _
  by_cases h : g.1 = p.vendor_id <;> simp [h, Function.comp]

theorem foldl_groups_lookup_some :
    ∀ (items : List SimilarProduct) (acc : List (Nat × List SimilarProduct))
      (vid : Nat) (g : List SimilarProduct), lookupAssoc acc vid = some g →
      lookupAssoc (items.foldl addToVendorGroups acc) vid =
        some (g ++ items.filter (fun p => p.vendor_id == vid)) := by
  intro items
  induction items with
  | nil => intro acc vid g h; simpa using h
  | cons p rest ih =>
    intro acc vid g h
    rw [List.foldl_cons]
    by_cases hpv : p.vendor_id = vid
    · have hcont : containsKey acc p.vendor_id = true := by
        rw [containsKey_eq_isSome, hpv, h]
        rfl
      have hacc2 : lookupAssoc (addToVendorGroups acc p) vid = some (g ++ [p]) := by
        unfold addToVendorGroups
        rw [if_pos hcont, lookup_addappend, if_pos hpv.symm, h]
        rfl
      rw [ih _ vid (g ++ [p]) hacc2, List.filter_cons_of_pos (by simp [hpv])]
      simp
    · have hacc2 : lookupAssoc (addToVendorGroups acc p) vid = some g := by
        unfold addToVendorGroups
        by_cases hcont : containsKey acc p.vendor_id = true
        · rw [if_pos hcont, lookup_addappend, if_neg (fun hh => hpv hh.symm), h]
        · rw [if_neg hcont]
          exact lookupAssoc_append_some h
      rw [ih _ vid g hacc2, List.filter_cons_of_neg (by simp [hpv])]

theorem foldl_groups_lookup_none :
    ∀ (items : List SimilarProduct) (acc : List (Nat × List SimilarProduct))
      (vid : Nat), lookupAssoc acc vid = none →
      lookupAssoc (items.foldl addToVendorGroups acc) vid =
        if items.any (fun p => p.vendor_id == vid) then
          some (items.filter (fun p => p.vendor_id == vid))
        else none := by
  intro items
  induction items with
  | nil => intro acc vid h; simpa using h
  | cons p rest ih =>
    intro acc vid h
    rw [List.foldl_cons]
    by_cases hpv : p.vendor_id = vid
    · have hcont : containsKey acc p.vendor_id = false := by
        rw [containsKey_eq_isSome, hpv, h]
        rfl
      have hacc2 : lookupAssoc (addToVendorGroups acc p) vid = some [p] := by
        unfold addToVendorGroups
        rw [if_neg (by simp [hcont]), lookupAssoc_append_none _ h, lookupAssoc,
          if_pos hpv]
      rw [foldl_groups_lookup_some rest _ vid [p] hacc2,
        List.filter_cons_of_pos (by simp [hpv])]
      have hany : ((p :: rest).any (fun p => p.vendor_id == vid)) = true := by
        simp [hpv]
      rw [hany]
      simp
    · have hacc2 : lookupAssoc (addToVendorGroups acc p) vid = none := by
        unfold addToVendorGroups
        by_cases hcont : containsKey acc p.vendor_id = true
        · rw [if_pos hcont, lookup_addappend, if_neg (fun hh => hpv hh.symm), h]
        · rw [if_neg hcont, lookupAssoc_append_none _ h, lookupAssoc, if_neg hpv]
          rfl
      rw [ih _ vid hacc2, List.filter_cons_of_neg (by simp [hpv])]
      have hany : ((p :: rest).any (fun q => q.vendor_id == vid)) =
          rest.any (fun q => q.vendor_id == vid) := by
        simp [hpv]
      rw [hany]

theorem vendorGroups_lookup (items : List SimilarProduct) (vid : Nat) :
    lookupAssoc (vendorGroups items) vid =
      if items.any (fun p => p.vendor_id == vid) then
        some (items.filter (fun p => p.vendor_id == vid))
      else none :=
  foldl_groups_lookup_none items [] vid rfl

theorem vendorGroups_keys_nodup (items : List SimilarProduct) :
    ((vendorGroups items).map (fun e => e.1)).Nodup := by
  suffices h : ∀ (its : List SimilarProduct) (acc : List (Nat × List SimilarProduct)),
      (acc.map (fun e => e.1)).Nodup →
      ((its.foldl addToVendorGroups acc).map (fun e => e.1)).Nodup by
    exact h items [] (by simp)
  intro its
  induction its with
  | nil => intro acc hacc; simpa using hacc
  | cons p rest ih =>
    intro acc hacc
    rw [List.foldl_cons]
    apply ih
    unfold addToVendorGroups
    by_cases hcont : containsKey acc p.vendor_id = true
    · rw [if_pos hcont, keys_mapAppend]
      exact hacc
    · rw [if_neg hcont, List.map_append]
      have hnot : p.vendor_id ∉ acc.map (fun e => e.1) := by
        intro hmem
        apply hcont
        obtain ⟨e, he, heq⟩ := List.mem_map.mp hmem
        exact containsKey_iff.mpr ⟨e, he, heq⟩
      have := @List.nodup_middle _ p.vendor_id (acc.map (fun e => e.1)) []
      rw [List.append_nil] at this
      exact this.mpr (List.nodup_cons.mpr ⟨hnot, hacc⟩)

theorem mem_vendorGroups {items : List SimilarProduct} {vid : Nat}
    {g : List SimilarProduct} :
    (vid, g) ∈ vendorGroups items ↔ lookupAssoc (vendorGroups items) vid = some g :=
  ⟨lookupAssoc_mem (vendorGroups_keys_nodup items), fun h => lookupAssoc_some_mem h⟩

theorem mem_analyzeVendorOverlaps {sel : List SelectedProduct}
    {corpus : List SimilarProduct} {m : VendorMatch} :
    m ∈ analyzeVendorOverlaps sel corpus ↔
      ∃ g, lookupAssoc (vendorGroups corpus) m.vendor_id = some g ∧
        1 ≤ ((g.map (fun p => p.original_product_id)).dedup).length ∧
        m = ⟨m.vendor_id, firstVendorName g,
          ((g.map (fun p => p.original_product_id)).dedup).length,
          (g.map (fun p => p.original_product_id)).dedup, g⟩ := by
  unfold analyzeVendorOverlaps
  rw [List.mem_filterMap]
  constructor
  · rintro ⟨e, he, hfe⟩
    obtain ⟨vid, g⟩ := e
    by_cases hc : 1 ≤ ((g.map (fun p => p.original_product_id)).dedup).length
    · simp only [if_pos hc, Option.some.injEq] at hfe
      have hvid : m.vendor_id = vid := by rw [← hfe]
      subst hvid
      exact ⟨g, mem_vendorGroups.mp he, hc, hfe.symm⟩
    · simp only [if_neg hc] at hfe
      exact Option.noConfusion hfe
  · rintro ⟨g, hg, hc, hm⟩
    refine ⟨(m.vendor_id, g), mem_vendorGroups.mpr hg, ?_⟩
    simp only [if_pos hc, Option.some.injEq]
    exact hm.symm

theorem rankedVendorMatches_mem (sel : List SelectedProduct)
    (corpus : List SimilarProduct) (m : VendorMatch) :
    m ∈ rankedVendorMatches sel corpus ↔
      m ∈ analyzeVendorOverlaps sel corpus ∧ 2 ≤ m.matched_products_count := by
  unfold rankedVendorMatches
  rw [List.mem_mergeSort, List.mem_filter]
  simp

theorem vendorLE_trans : ∀ a b c : VendorMatch, vendorLE a b → vendorLE b c →
    vendorLE a c := by
  intro a b c hab hbc
  simp only [vendorLE, Bool.or_eq_true, Bool.and_eq_true, decide_eq_true_eq,
    beq_iff_eq] at *
  rcases hab with h1 | ⟨h1, h2⟩ <;> rcases hbc with h3 | ⟨h3, h4⟩
  · left; omega
  · left; omega
  · left; omega
  · right; exact ⟨h1.trans h3, le_trans h2 h4⟩

theorem vendorLE_total : ∀ a b : VendorMatch, vendorLE a b || vendorLE b a := by
  intro a b
  simp only [vendorLE, Bool.or_eq_true, Bool.and_eq_true, decide_eq_true_eq,
    beq_iff_eq]
  rcases Nat.lt_trichotomy a.matched_products_count b.matched_products_count
    with h | h | h
  · right; left; exact h
  · rcases le_total a.vendor_name b.vendor_name with hn | hn
    · left; right; exact ⟨h, hn⟩
    · right; right; exact ⟨h.symm, hn⟩
  · left; left; exact h

theorem ranked_count_eq {sel : List SelectedProduct} {corpus : List SimilarProduct}
    {m : VendorMatch} (hm : m ∈ rankedVendorMatches sel corpus) :
    m.matched_products_count = coveredSelectionCount corpus m.vendor_id ∧
      2 ≤ m.matched_products_count := by
  obtain ⟨hana, hcnt⟩ := (rankedVendorMatches_mem sel corpus m).mp hm
  obtain ⟨g, hg, hc1, hmeq⟩ := mem_analyzeVendorOverlaps.mp hana
  rw [vendorGroups_lookup] at hg
  by_cases hany : corpus.any (fun p => p.vendor_id == m.vendor_id) = true
  · rw [if_pos hany, Option.some.injEq] at hg
    subst hg
    refine ⟨?_, hcnt⟩
    conv_lhs => rw [hmeq]
    rfl
  · rw [if_neg hany] at hg
    exact absurd hg (by simp)

/-- C1: the final report's vendor list contains exactly the vendors whose
similar items cover at least two distinct source selections (so a vendor
covering one selection never appears); each listed vendor's
`matched_products_count` is its distinct-selection coverage; the list is
sorted primarily by matched count descending and secondarily by vendor
name ascending; and on a non-empty selection list `find_vendor_overlaps`
produces exactly this ranked list over the fetched corpus. -/
theorem vendor_overlap_report (sel : List SelectedProduct)
    (corpus : List SimilarProduct) (vid : Nat)
    (src : SelectedProduct → Nat → Nat → Except Unit (List RawProduct))
    (sel2 : List SelectedProduct) (hne : sel2 ≠ []) :
    ((∃ m ∈ rankedVendorMatches sel corpus, m.vendor_id = vid) ↔
      2 ≤ coveredSelectionCount corpus vid) ∧
    (∀ m ∈ rankedVendorMatches sel corpus,
      m.matched_products_count = coveredSelectionCount corpus m.vendor_id) ∧
    (rankedVendorMatches sel corpus).Pairwise
      (fun a b => b.matched_products_count < a.matched_products_count ∨
        (a.matched_products_count = b.matched_products_count ∧
          a.vendor_name ≤ b.vendor_name)) ∧
    (findVendorOverlaps src sel2).vendors_with_multiple_matches =
      rankedVendorMatches sel2 ((sel2.map (fetchForItem src)).flatten) := by
  refine ⟨⟨?_, ?_⟩, ?_, ?_, ?_⟩
  · rintro ⟨m, hm, rfl⟩
    obtain ⟨hceq, hc2⟩ := ranked_count_eq hm
    omega
  · intro h2
    have hc : coveredSelectionCount corpus vid =
        (((corpus.filter (fun p => p.vendor_id == vid)).map
          (fun p => p.original_product_id)).dedup).length := rfl
    have hfil : corpus.filter (fun p => p.vendor_id == vid) ≠ [] := by
      intro h0
      rw [hc, h0] at h2
      simp at h2
    have hany : corpus.any (fun p => p.vendor_id == vid) = true := by
      obtain ⟨x, hx⟩ := List.exists_mem_of_ne_nil _ hfil
      rw [List.any_eq_true]
      exact ⟨x, (List.mem_filter.mp hx).1, (List.mem_filter.mp hx).2⟩
    have hg : lookupAssoc (vendorGroups corpus) vid =
        some (corpus.filter (fun p => p.vendor_id == vid)) := by
      rw [vendorGroups_lookup, if_pos hany]
    have hana : (⟨vid, firstVendorName (corpus.filter (fun p => p.vendor_id == vid)),
        (((corpus.filter (fun p => p.vendor_id == vid)).map
          (fun p => p.original_product_id)).dedup).length,
        ((corpus.filter (fun p => p.vendor_id == vid)).map
          (fun p => p.original_product_id)).dedup,
        corpus.filter (fun p => p.vendor_id == vid)⟩ : VendorMatch) ∈
        analyzeVendorOverlaps sel corpus :=
      mem_analyzeVendorOverlaps.mpr ⟨corpus.filter (fun p => p.vendor_id == vid),
        hg, by rw [hc] at h2; omega, rfl⟩
    refine ⟨_, (rankedVendorMatches_mem sel corpus _).mpr ⟨hana, ?_⟩, rfl⟩
    rw [hc] at h2
    exact h2
  · intro m hm
    exact (ranked_count_eq hm).1
  · exact (List.sorted_mergeSort vendorLE_trans vendorLE_total _).imp
      (fun h => by
        simpa only [vendorLE, Bool.or_eq_true, Bool.and_eq_true, decide_eq_true_eq,
          beq_iff_eq] using h)
  · cases sel2 with
    | nil => exact absurd rfl hne
    | cons a t =>
      simp only [findVendorOverlaps, List.map_map]
      rfl

/-- Witness for C1 at an empty corpus and a one-selection run with the
always-failing source. -/
theorem vendor_overlap_report_witness :
    ((∃ m ∈ rankedVendorMatches [] [], m.vendor_id = 3) ↔
      2 ≤ coveredSelectionCount [] 3) ∧
    (∀ m ∈ rankedVendorMatches ([] : List SelectedProduct)
      ([] : List SimilarProduct),
      m.matched_products_count = coveredSelectionCount [] m.vendor_id) ∧
    (rankedVendorMatches ([] : List SelectedProduct)
      ([] : List SimilarProduct)).Pairwise
      (fun a b => b.matched_products_count < a.matched_products_count ∨
        (a.matched_products_count = b.matched_products_count ∧
          a.vendor_name ≤ b.vendor_name)) ∧
    (findVendorOverlaps failSrcAll [demoSel1]).vendors_with_multiple_matches =
      rankedVendorMatches [demoSel1] (([demoSel1].map (fetchForItem failSrcAll)).flatten) :=
  vendor_overlap_report [] [] 3 failSrcAll [demoSel1] (by simp)

end Salamyar
